import Mathlib

namespace MaiIr

/-!
Verification of the mai_ir boolean-search core (lab7/boolindex.py,
lab8/boolsearch.py, lab8/web.py) against its design document.

Bytes are modelled as natural numbers (each the value of one byte of the
on-disk postings blob); files are lists of bytes; the `struct` fixed-width
codec and the varint codec are translated function-by-function from the
Python source.
-/

/-! ## Definitions (shallow embedding of the source) -/

/-- One doc id packed as `struct.pack("<I", d)`: four bytes, little endian.
`struct.pack` demands `d < 2^32`; theorems that depend on the value carry
that bound as a hypothesis. -/
def encU32 (d : Nat) : List Nat :=
  [d % 256, d / 256 % 256, d / 65536 % 256, d / 16777216 % 256]

/-- boolsearch.py `read_postings` decoding loop: consume the byte string in
4-byte chunks, `struct.unpack("<I", ...)` on each. -/
def decU32s : List Nat → List Nat
  | b0 :: b1 :: b2 :: b3 :: rest =>
      (b0 + b1 * 256 + b2 * 65536 + b3 * 16777216) :: decU32s rest
  | _ => []

/-- web.py `read_varint` loop body: `v |= (b & 0x7F) << shift`, stop when the
high bit is clear, else `shift += 7`.  Reading past the end of the stream is
the `EOFError("unexpected EOF")` branch, modelled as `none`. -/
def read_varint_go : List Nat → Nat → Nat → Option (Nat × List Nat)
  | [], _, _ => none
  | b :: rest, v, shift =>
      let v' := v ||| ((b &&& 127) <<< shift)
      if b &&& 128 = 0 then some (v', rest) else read_varint_go rest v' (shift + 7)

/-- web.py `read_varint`: `v = 0`, `shift = 0` at entry. -/
def read_varint (bs : List Nat) : Option (Nat × List Nat) :=
  read_varint_go bs 0 0

/-- web.py `load_postings` loop: `df` varints, `cur = gap if i == 0 else cur + gap`. -/
def load_postings_go : List Nat → Nat → Bool → Nat → Option (List Nat)
  | _, _, _, 0 => some []
  | bs, cur, first, Nat.succ k =>
      match read_varint bs with
      | none => none
      | some (gap, rest) =>
          let cur' := if first then gap else cur + gap
          match load_postings_go rest cur' false k with
          | none => none
          | some l => some (cur' :: l)

/-- web.py `load_postings`: seek to `off`, then decode `df` delta gaps. -/
def load_postings (blob : List Nat) (off df : Nat) : Option (List Nat) :=
  load_postings_go (blob.drop off) 0 true df

/-- Modelled from the spec: the assembler's variable-length-integer writer
(design §4.4 — 7 payload bits per byte, high bit set iff another byte
follows, low-order 7-bit group first).  The shipped `flush` in boolindex.py
writes fixed 4-byte integers instead, so no varint writer exists in the
source; this definition follows the spec's words. -/
def write_varint (n : Nat) : List Nat :=
  if n < 128 then [n] else (n % 128 + 128) :: write_varint (n / 128)
termination_by n
decreasing_by exact Nat.div_lt_self (by omega) (by omega)

/-- Modelled from the spec: gaps of a doc-id list relative to a previous id
(`gap[i] = ids[i] - ids[i-1]`). -/
def gaps_from (prev : Nat) : List Nat → List Nat
  | [] => []
  | y :: ys => (y - prev) :: gaps_from y ys

/-- Modelled from the spec: delta-gap sequence of a doc-id list
(`gap[0] = ids[0]`, `gap[i] = ids[i] - ids[i-1]`). -/
def delta_gaps : List Nat → List Nat
  | [] => []
  | x :: xs => x :: gaps_from x xs

/-- Modelled from the spec: the delta-gap varint encoding of a posting list
(design §4.4): concatenation of the varint encodings of the gaps. -/
def encode_postings (ids : List Nat) : List Nat :=
  (delta_gaps ids).flatMap write_varint

/-- One row of `dict.tsv` as written by boolindex.py `flush`:
`term \t df \t offset \t nbytes`. -/
structure DictEntry where
  term : String
  df : Nat
  off : Nat
  nb : Nat
deriving DecidableEq, Repr

/-- The assembler's fold state in `build_inverted_from_sorted`: the grouping
variables `cur_term`, `last_doc`, `postings`, the bytes written so far to
`postings.bin`, the rows written to `dict.tsv`, and the running `offset`. -/
structure IdxState where
  cur_term : Option String
  last_doc : Option Nat
  postings : List Nat
  blob : List Nat
  dict : List DictEntry
  offset : Nat
deriving DecidableEq, Repr

/-- The byte string a `flush` writes for a posting list:
`postings_list.sort()` then `b"".join(struct.pack("<I", d) ...)`. -/
def flushData (l : List Nat) : List Nat :=
  (l.mergeSort (fun a b => decide (a ≤ b))).flatMap encU32

/-- boolindex.py `flush(term, postings_list)`: on `term is None` do nothing,
else append the packed bytes to the blob, write the dictionary row
`(term, len(postings_list), offset, nbytes)` and advance `offset`. -/
def flushIdx (st : IdxState) (term : Option String) (l : List Nat) : IdxState :=
  match term with
  | none => st
  | some t =>
      let data := flushData l
      { st with
          blob := st.blob ++ data
          dict := st.dict ++ [⟨t, l.length, st.offset, data.length⟩]
          offset := st.offset + data.length }

/-- Second half of the assembler's loop body: append the doc id to the
current posting list only when it differs from `last_doc` (the adjacent
duplicate check). -/
def idxAppend (st : IdxState) (d : Nat) : IdxState :=
  if st.last_doc = some d then st
  else { st with postings := st.postings ++ [d], last_doc := some d }

/-- The body of the assembler's `for line in inp` loop, for one
`(term, doc_id)` pair: flush and reset on term change, then append the doc
id only when it differs from `last_doc`. -/
def idxStep (st : IdxState) (p : String × Nat) : IdxState :=
  idxAppend
    (if st.cur_term = some p.1 then st
     else { flushIdx st st.cur_term st.postings with
              cur_term := some p.1, postings := [], last_doc := none })
    p.2

def initIdx : IdxState := ⟨none, none, [], [], [], 0⟩

/-- boolindex.py `build_inverted_from_sorted`, starting from the parsed
`(term, doc_id)` stream: fold the loop body, then the final
`flush(cur_term, postings)`. -/
def buildIndex (pairs : List (String × Nat)) : IdxState :=
  let st := pairs.foldl idxStep initIdx
  flushIdx st st.cur_term st.postings

/-- boolsearch.py `load_dict` builds a Python dict keyed by term, so a later
row for the same term overwrites an earlier one; lookup therefore returns
the last matching row. -/
def dictLookup (dict : List DictEntry) (t : String) : Option DictEntry :=
  dict.reverse.find? (fun e => e.term == t)

/-- boolsearch.py `read_postings`: absent term gives `[]`; otherwise read
`nb` bytes at `off` from `postings.bin` and unpack consecutive `<I` values. -/
def read_postings (t : String) (dict : List DictEntry) (blob : List Nat) :
    List Nat :=
  match dictLookup dict t with
  | none => []
  | some e => decU32s ((blob.drop e.off).take e.nb)

/-- The ordering of the sorted `(term, doc_id)` stream the assembler
consumes: by term, then numerically by doc id within a term. -/
def pairLE (p q : String × Nat) : Prop :=
  p.1 < q.1 ∨ (p.1 = q.1 ∧ p.2 ≤ q.2)

instance (p q : String × Nat) : Decidable (pairLE p q) := by
  unfold pairLE; infer_instance

/-- Well-formedness of one dictionary row against the postings blob: its
byte range lies inside the blob and decodes to a strictly increasing
doc-id list. -/
def GoodEntry (blob : List Nat) (e : DictEntry) : Prop :=
  e.off + e.nb ≤ blob.length ∧
    (decU32s ((blob.drop e.off).take e.nb)).Chain' (· < ·)

/-- boolsearch.py `op_and`: two-pointer sorted intersection. -/
def op_and : List Nat → List Nat → List Nat
  | [], _ => []
  | _ :: _, [] => []
  | x :: xs, y :: ys =>
      if x = y then x :: op_and xs ys
      else if x < y then op_and xs (y :: ys)
      else op_and (x :: xs) ys
termination_by a b => a.length + b.length

/-- boolsearch.py `op_or`: two-pointer sorted union, then the two
`out.extend(...)` calls for whichever side is left over. -/
def op_or : List Nat → List Nat → List Nat
  | [], b => b
  | a :: as_, [] => a :: as_
  | x :: xs, y :: ys =>
      if x = y then x :: op_or xs ys
      else if x < y then x :: op_or xs (y :: ys)
      else y :: op_or (x :: xs) ys
termination_by a b => a.length + b.length

/-- boolsearch.py `op_not` inner loop: walk `a` in parallel with the doc-id
range, emitting ids not present in `a`. -/
def op_not_go : List Nat → List Nat → List Nat
  | _, [] => []
  | [], d :: ds => d :: op_not_go [] ds
  | x :: xs, d :: ds =>
      if x = d then op_not_go xs ds else d :: op_not_go (x :: xs) ds
termination_by a ds => ds.length

/-- boolsearch.py `op_not`: complement of `a` against `range(n_docs)`. -/
def op_not (a : List Nat) (n_docs : Nat) : List Nat :=
  op_not_go a (List.range n_docs)

/-- boolsearch.py `PREC` dict: `NOT` 3, `AND` 2, `OR` 1 (0 marks a
non-operator token, i.e. `t not in PREC`). -/
def PREC (t : String) : Nat :=
  if t = "NOT" then 3 else if t = "AND" then 2 else if t = "OR" then 1 else 0

/-- `t in PREC` in boolsearch.py. -/
def isOpTok (t : String) : Bool :=
  t = "NOT" || t = "AND" || t = "OR"

/-- The inner `while` of the `")"` branch of `to_rpn`: pop operators to the
output until an opening parenthesis or an empty stack. -/
def popUntilParen (out stack : List String) : List String × List String :=
  match stack with
  | [] => (out, [])
  | s :: rest =>
      if s = "(" then (out, s :: rest) else popUntilParen (out ++ [s]) rest

/-- The inner `while` of the operator branch of `to_rpn`: pop while the top
of the stack is an operator of higher precedence (or equal precedence and
the incoming token is not right-associative, i.e. not `NOT`). -/
def popOps (t : String) (out stack : List String) : List String × List String :=
  match stack with
  | [] => (out, [])
  | top :: rest =>
      if isOpTok top &&
          (decide (PREC top > PREC t) || (PREC top == PREC t && !(t == "NOT")))
      then popOps t (out ++ [top]) rest
      else (out, top :: rest)

/-- The final drain of `to_rpn`: pop the stack to the output, raising
`ValueError("Mismatched parentheses")` if a parenthesis is left. -/
def drainStack (out stack : List String) : Except String (List String) :=
  match stack with
  | [] => Except.ok out
  | s :: rest =>
      if s = "(" ∨ s = ")" then Except.error "Mismatched parentheses"
      else drainStack (out ++ [s]) rest

/-- boolsearch.py `to_rpn` main loop over the token list, carrying the
output list and the operator stack (head = top of stack). -/
def to_rpn_go : List String → List String → List String → Except String (List String)
  | [], out, stack => drainStack out stack
  | t :: rest, out, stack =>
      if t = "(" then to_rpn_go rest out (t :: stack)
      else if t = ")" then
        match popUntilParen out stack with
        | (_, []) => Except.error "Mismatched parentheses"
        | (out', _ :: stack') => to_rpn_go rest out' stack'
      else if isOpTok t then
        match popOps t out stack with
        | (out', stack') => to_rpn_go rest out' (t :: stack')
      else to_rpn_go rest (out ++ [t]) stack

/-- boolsearch.py `to_rpn`. -/
def to_rpn (tokens : List String) : Except String (List String) :=
  to_rpn_go tokens [] []

/-- Whether the parenthesis tokens of a query balance, tracked with a depth
counter (every non-parenthesis token is ignored). -/
def balancedFrom : List String → Nat → Bool
  | [], d => d == 0
  | t :: rest, d =>
      if t = "(" then balancedFrom rest (d + 1)
      else if t = ")" then
        match d with
        | 0 => false
        | d' + 1 => balancedFrom rest d'
      else balancedFrom rest d

/-- boolsearch.py `eval_rpn` main loop over the operation sequence, with
the stack of posting lists (head = top).  The three `raise ValueError`
sites keep their Python messages. -/
def eval_go (dict : List DictEntry) (blob : List Nat) (n : Nat) :
    List String → List (List Nat) → Except String (List (List Nat))
  | [], st => Except.ok st
  | t :: rest, st =>
      if t = "NOT" then
        match st with
        | [] => Except.error "NOT missing operand"
        | a :: st' => eval_go dict blob n rest (op_not a n :: st')
      else if t = "AND" then
        match st with
        | b :: a :: st' => eval_go dict blob n rest (op_and a b :: st')
        | _ => Except.error "AND missing operand"
      else if t = "OR" then
        match st with
        | b :: a :: st' => eval_go dict blob n rest (op_or a b :: st')
        | _ => Except.error "OR missing operand"
      else eval_go dict blob n rest (read_postings t dict blob :: st)

/-- boolsearch.py `eval_rpn`: run the loop from an empty stack; at the end
exactly one set must remain (`raise ValueError("Bad query")` otherwise). -/
def eval_rpn (dict : List DictEntry) (blob : List Nat) (n : Nat)
    (rpn : List String) : Except String (List Nat) :=
  match eval_go dict blob n rpn [] with
  | Except.error e => Except.error e
  | Except.ok [s] => Except.ok s
  | Except.ok _ => Except.error "Bad query"

/-- boolsearch.py `search`, restricted to its parse-and-evaluate core (the
tokenizer and the top-k truncation sit outside the verified scope). -/
def runQuery (dict : List DictEntry) (blob : List Nat) (n : Nat)
    (tokens : List String) : Except String (List Nat) :=
  match to_rpn tokens with
  | Except.error e => Except.error e
  | Except.ok rpn => eval_rpn dict blob n rpn

/-- web.py token kinds `TT_TERM .. TT_RP` (terms carry their text). -/
inductive WTok where
  | term (t : String)
  | AND
  | OR
  | NOT
  | LP
  | RP
deriving DecidableEq, Repr

/-- web.py `load_dict` keeps rows `(term, off, df)` in a Python dict, so a
later row for the same term overwrites an earlier one. -/
def webDictLookup (dict : List (String × Nat × Nat)) (t : String) :
    Option (Nat × Nat) :=
  match dict.reverse.find? (fun e => e.1 == t) with
  | none => none
  | some e => some e.2

/-- web.py `intersect_sorted`. -/
def intersect_sorted : List Nat → List Nat → List Nat
  | [], _ => []
  | _ :: _, [] => []
  | x :: xs, y :: ys =>
      if x = y then x :: intersect_sorted xs ys
      else if x < y then intersect_sorted xs (y :: ys)
      else intersect_sorted (x :: xs) ys
termination_by a b => a.length + b.length

/-- web.py `union_sorted`. -/
def union_sorted : List Nat → List Nat → List Nat
  | [], b => b
  | a :: as_, [] => a :: as_
  | x :: xs, y :: ys =>
      if x < y then x :: union_sorted xs (y :: ys)
      else if y < x then y :: union_sorted (x :: xs) ys
      else x :: union_sorted xs ys
termination_by a b => a.length + b.length

/-- web.py `complement_sorted`. -/
def complement_sorted_go : List Nat → List Nat → List Nat
  | _, [] => []
  | [], d :: ds => d :: complement_sorted_go [] ds
  | x :: xs, d :: ds =>
      if x = d then complement_sorted_go xs ds
      else d :: complement_sorted_go (x :: xs) ds
termination_by a ds => ds.length

/-- web.py `complement_sorted`: complement against `range(n_docs)`. -/
def complement_sorted (a : List Nat) (n_docs : Nat) : List Nat :=
  complement_sorted_go a (List.range n_docs)

/-- web.py `eval_rpn` loop as a stack transformer.  `Except.ok none` is the
mid-loop `return []` taken when an operator lacks operands;
`Except.ok (some st)` is normal fall-through with final stack `st`;
`Except.error` is an `EOFError` escaping from `load_postings`.  Tokens that
match no branch of the Python `if`/`elif` chain (a stray `TT_LP`/`TT_RP`)
are silently skipped, as in the source. -/
def web_run (dict : List (String × Nat × Nat)) (blob : List Nat) (n : Nat) :
    List WTok → List (List Nat) → Except String (Option (List (List Nat)))
  | [], st => Except.ok (some st)
  | WTok.term t :: rest, st =>
      match webDictLookup dict t with
      | none => web_run dict blob n rest ([] :: st)
      | some (off, df) =>
          match load_postings blob off df with
          | none => Except.error "unexpected EOF"
          | some l => web_run dict blob n rest (l :: st)
  | WTok.NOT :: rest, st =>
      match st with
      | [] => Except.ok none
      | a :: st' => web_run dict blob n rest (complement_sorted a n :: st')
  | WTok.AND :: rest, st =>
      match st with
      | b :: a :: st' => web_run dict blob n rest (intersect_sorted a b :: st')
      | _ => Except.ok none
  | WTok.OR :: rest, st =>
      match st with
      | b :: a :: st' => web_run dict blob n rest (union_sorted a b :: st')
      | _ => Except.ok none
  | WTok.LP :: rest, st => web_run dict blob n rest st
  | WTok.RP :: rest, st => web_run dict blob n rest st

/-- web.py `eval_rpn`: the mid-loop `return []` yields `[]`, and at the end
`st[0] if len(st) == 1 else []`.  Only an `EOFError` from a corrupt blob
escapes as an error. -/
def web_eval_rpn (dict : List (String × Nat × Nat)) (blob : List Nat)
    (n : Nat) (rpn : List WTok) : Except String (List Nat) :=
  match web_run dict blob n rpn [] with
  | Except.error e => Except.error e
  | Except.ok none => Except.ok []
  | Except.ok (some st) =>
      match st with
      | [s] => Except.ok s
      | _ => Except.ok []

/-- boolindex.py `list_docs`: pair each discovered file under the
`wikipedia_en` and `marinelink` source directories with its tag, then sort
by path (`docs.sort(key=lambda x: x[1])`). -/
def list_docs (wiki marine : List String) : List (String × String) :=
  ((wiki.map (fun p => ("wikipedia_en", p))) ++
      (marine.map (fun p => ("marinelink", p)))).mergeSort
    (fun a b => decide (a.2 ≤ b.2))

/-- boolindex.py `main`, reduced to its decision structure: enumerate the
corpus and abort with `SystemExit("No documents found in input_dir")`
before any artifact is produced when it is empty, else run the pipeline
(extraction and external sort abstracted as `sortedPairs`) and build the
index.  The error value carries no artifacts. -/
def mainBuild (wiki marine : List String)
    (sortedPairs : List (String × String) → List (String × Nat)) :
    Except String (List (String × String) × IdxState) :=
  let docs := list_docs wiki marine
  if docs.isEmpty then Except.error "No documents found in input_dir"
  else Except.ok (docs, buildIndex (sortedPairs docs))

/-- The operand-shortage condition of boolsearch.py `eval_rpn`: `AND`/`OR`
with fewer than two stacked operands, or `NOT` with an empty stack. -/
def underflowCond (op : String) (st : List (List Nat)) : Prop :=
  ((op = "AND" ∨ op = "OR") ∧ st.length < 2) ∨ (op = "NOT" ∧ st = [])

/-- Shape invariant of `to_rpn`'s operator stack: entries are operators or
`"("` (never `")"`), and `d` counts the `"("` entries. -/
inductive StackInv : List String → Nat → Prop where
  | nil : StackInv [] 0
  | op (t : String) (s : List String) (d : Nat) :
      t ≠ "(" → t ≠ ")" → StackInv s d → StackInv (t :: s) d
  | paren (s : List String) (d : Nat) : StackInv s d → StackInv ("(" :: s) (d + 1)

/-- The operand-shortage condition of web.py `eval_rpn`: `AND`/`OR` with
fewer than two stacked operands, or `NOT` with an empty stack. -/
def webUnderflow (op : WTok) (st : List (List Nat)) : Prop :=
  ((op = WTok.AND ∨ op = WTok.OR) ∧ st.length < 2) ∨
    (op = WTok.NOT ∧ st = [])

/-! ## Theorems -/

theorem decU32s_encU32 (d : Nat) (rest : List Nat) (h : d < 4294967296) :
    decU32s (encU32 d ++ rest) = d :: decU32s rest := by
  simp only [encU32, List.cons_append, List.nil_append, decU32s]
  congr 1
  omega

theorem decU32s_flatMap (l : List Nat) (h : ∀ d ∈ l, d < 4294967296) :
    decU32s (l.flatMap encU32) = l := by
  induction l with
  | nil => rfl
  | cons x xs ih =>
      rw [List.flatMap_cons, decU32s_encU32 x _ (h x (List.mem_cons_self x xs))]
      rw [ih (fun d hd => h d (List.mem_cons_of_mem x hd))]

theorem lor_shiftLeft_of_lt {v k : Nat} (m : Nat) (h : v < 2 ^ k) :
    v ||| (m <<< k) = v + m * 2 ^ k := by
  rw [Nat.shiftLeft_eq, Nat.lor_comm, Nat.mul_comm m (2 ^ k),
    ← Nat.mul_add_lt_is_or h m]
  omega

theorem and_127_eq (b : Nat) : b &&& 127 = b % 128 := by
  have h := Nat.and_pow_two_sub_one_eq_mod b 7
  norm_num at h
  exact h

theorem and_128_eq_zero_of_lt {n : Nat} (h : n < 128) : n &&& 128 = 0 := by
  have h1 : (128 : Nat) = 2 ^ 7 := by norm_num
  rw [h1, Nat.and_two_pow]
  rw [Nat.testBit_lt_two_pow (lt_of_lt_of_le h (by norm_num))]
  rfl

theorem and_128_ne_zero {n : Nat} (h : 128 ≤ n % 256) : n &&& 128 ≠ 0 := by
  have h1 : (128 : Nat) = 2 ^ 7 := by norm_num
  rw [h1, Nat.and_two_pow]
  have ht : n.testBit 7 = true := by
    rw [Nat.testBit_to_div_mod]
    simp only [decide_eq_true_eq]
    have h2 : (2 : Nat) ^ 7 = 128 := by norm_num
    rw [h2]
    omega
  rw [ht]
  norm_num

theorem read_varint_go_write (n : Nat) :
    ∀ (rest : List Nat) (v shift : Nat), v < 2 ^ shift →
      read_varint_go (write_varint n ++ rest) v shift = some (v + n * 2 ^ shift, rest) := by
  induction n using Nat.strong_induction_on with
  | _ n ih =>
    intro rest v shift hv
    rw [write_varint]
    by_cases h : n < 128
    · simp only [if_pos h, List.cons_append, List.nil_append, read_varint_go]
      rw [and_127_eq, Nat.mod_eq_of_lt h, and_128_eq_zero_of_lt h]
      simp [lor_shiftLeft_of_lt n hv]
    · simp only [if_neg h, List.cons_append, read_varint_go]
      have hb : (n % 128 + 128) &&& 127 = n % 128 := by
        rw [and_127_eq]; omega
      have hbit : (n % 128 + 128) &&& 128 ≠ 0 := by
        apply and_128_ne_zero
        have : n % 128 < 128 := Nat.mod_lt _ (by omega)
        omega
      rw [hb]
      simp only [if_neg hbit]
      have hlt : n / 128 < n := Nat.div_lt_self (by omega) (by omega)
      have hv' : v ||| ((n % 128) <<< shift) = v + (n % 128) * 2 ^ shift :=
        lor_shiftLeft_of_lt _ hv
      have hv'lt : v + (n % 128) * 2 ^ shift < 2 ^ (shift + 7) := by
        have h1 : n % 128 < 128 := Nat.mod_lt _ (by omega)
        have h2 : (n % 128) * 2 ^ shift ≤ 127 * 2 ^ shift :=
          Nat.mul_le_mul_right _ (by omega)
        have h3 : 2 ^ (shift + 7) = 2 ^ shift * 128 := by
          rw [pow_add]; norm_num
        omega
      rw [hv']
      rw [ih (n / 128) hlt rest _ (shift + 7) hv'lt]
      congr 2
      have h3 : 2 ^ (shift + 7) = 2 ^ shift * 128 := by
        rw [pow_add]; norm_num
      have h4 : n = 128 * (n / 128) + n % 128 := (Nat.div_add_mod n 128).symm
      rw [h3]
      nlinarith [Nat.div_add_mod n 128]

theorem read_varint_write (n : Nat) (rest : List Nat) :
    read_varint (write_varint n ++ rest) = some (n, rest) := by
  rw [read_varint, read_varint_go_write n rest 0 0 (by norm_num)]
  norm_num

theorem load_go_gaps (ids : List Nat) :
    ∀ (prev : Nat) (rest : List Nat), List.Chain (· < ·) prev ids →
      load_postings_go ((gaps_from prev ids).flatMap write_varint ++ rest)
          prev false ids.length = some ids := by
  induction ids with
  | nil => intro prev rest _; rfl
  | cons y ys ih =>
      intro prev rest hchain
      rcases List.chain_cons.mp hchain with ⟨hlt, hchain'⟩
      simp only [gaps_from, List.flatMap_cons, List.length_cons, List.append_assoc]
      show load_postings_go _ prev false (ys.length + 1) = _
      simp only [load_postings_go, read_varint_write (y - prev) _]
      have hcur : prev + (y - prev) = y := by omega
      simp only [Bool.false_eq_true, if_false, hcur, ih y rest hchain']

theorem load_postings_encode (ids : List Nat) (pre rest : List Nat)
    (h : ids.Chain' (· < ·)) :
    load_postings (pre ++ encode_postings ids ++ rest) pre.length ids.length =
      some ids := by
  rw [load_postings, List.append_assoc, List.drop_left]
  cases ids with
  | nil => rfl
  | cons x xs =>
      have hchain2 : List.Chain (· < ·) x xs := h
      simp only [encode_postings, delta_gaps, List.flatMap_cons, List.append_assoc,
        List.length_cons]
      show load_postings_go _ 0 true (xs.length + 1) = _
      simp only [load_postings_go, read_varint_write x _]
      simp only [if_true, load_go_gaps xs x rest hchain2]

theorem flushData_of_sorted (l : List Nat) (h : l.Chain' (· < ·)) :
    flushData l = l.flatMap encU32 := by
  rw [flushData, List.mergeSort_of_sorted]
  have hp : l.Pairwise (· < ·) := List.chain'_iff_pairwise.mp h
  exact hp.imp fun hlt => decide_eq_true (Nat.le_of_lt hlt)

theorem slice_append_stable (blob ext : List Nat) (off nb : Nat)
    (h : off + nb ≤ blob.length) :
    ((blob ++ ext).drop off).take nb = (blob.drop off).take nb := by
  rw [List.drop_append_of_le_length (by omega)]
  rw [List.take_append_of_le_length (by simp; omega)]

theorem decU32s_flushData (l : List Nat) (hs : l.Chain' (· < ·))
    (hb : ∀ d ∈ l, d < 4294967296) :
    decU32s (flushData l) = l := by
  rw [flushData_of_sorted l hs, decU32s_flatMap l hb]

theorem flushIdx_dict (st : IdxState) (t : String) (l : List Nat) :
    (flushIdx st (some t) l).dict =
      st.dict ++ [⟨t, l.length, st.offset, (flushData l).length⟩] := rfl

theorem flushIdx_blob (st : IdxState) (t : String) (l : List Nat) :
    (flushIdx st (some t) l).blob = st.blob ++ flushData l := rfl

theorem dictLookup_append_last (dict : List DictEntry) (e : DictEntry) :
    dictLookup (dict ++ [e]) e.term = some e := by
  rw [dictLookup, List.reverse_append]
  simp [List.find?]

theorem read_postings_flush (st : IdxState) (t : String) (l : List Nat)
    (hoff : st.offset = st.blob.length) (hs : l.Chain' (· < ·))
    (hb : ∀ d ∈ l, d < 4294967296) :
    read_postings t (flushIdx st (some t) l).dict (flushIdx st (some t) l).blob
      = l := by
  rw [read_postings, flushIdx_dict, flushIdx_blob,
    dictLookup_append_last st.dict ⟨t, l.length, st.offset, (flushData l).length⟩]
  show decU32s (((st.blob ++ flushData l).drop st.offset).take (flushData l).length) = l
  rw [hoff, List.drop_left, List.take_length, decU32s_flushData l hs hb]

theorem goodEntry_append (blob ext : List Nat) (e : DictEntry)
    (h : GoodEntry blob e) : GoodEntry (blob ++ ext) e := by
  obtain ⟨h1, h2⟩ := h
  refine ⟨by simp only [List.length_append]; omega, ?_⟩
  rw [slice_append_stable blob ext e.off e.nb h1]
  exact h2

theorem flushIdx_good (st : IdxState) (term : Option String) (l : List Nat)
    (hoff : st.offset = st.blob.length)
    (hdict : ∀ e ∈ st.dict, GoodEntry st.blob e)
    (hs : l.Chain' (· < ·)) (hb : ∀ d ∈ l, d < 4294967296) :
    (flushIdx st term l).offset = (flushIdx st term l).blob.length ∧
      ∀ e ∈ (flushIdx st term l).dict, GoodEntry (flushIdx st term l).blob e := by
  cases term with
  | none => exact ⟨hoff, hdict⟩
  | some t =>
      constructor
      · show st.offset + (flushData l).length = (st.blob ++ flushData l).length
        simp [hoff]
      · intro e he
        rw [flushIdx_dict] at he
        rcases List.mem_append.mp he with h | h
        · exact goodEntry_append _ _ _ (hdict e h)
        · rw [List.mem_singleton] at h
          subst h
          refine ⟨?_, ?_⟩
          · show st.offset + (flushData l).length ≤ (st.blob ++ flushData l).length
            simp [hoff]
          · show (decU32s (((st.blob ++ flushData l).drop st.offset).take
              (flushData l).length)).Chain' (· < ·)
            rw [hoff, List.drop_left, List.take_length, decU32s_flushData l hs hb]
            exact hs

theorem idxAppend_fixed (st : IdxState) (d : Nat) (h : st.last_doc = some d) :
    idxAppend st d = st := by
  rw [idxAppend, if_pos h]

theorem idxAppend_push (st : IdxState) (d : Nat) (h : st.last_doc ≠ some d) :
    idxAppend st d =
      { st with postings := st.postings ++ [d], last_doc := some d } := by
  rw [idxAppend, if_neg h]

theorem build_loop_good (pairs : List (String × Nat)) :
    ∀ (p : String × Nat) (st : IdxState),
      List.Chain pairLE p pairs →
      (∀ q ∈ p :: pairs, q.2 < 4294967296) →
      st.offset = st.blob.length →
      (∀ e ∈ st.dict, GoodEntry st.blob e) →
      st.postings.Chain' (· < ·) →
      (∀ d ∈ st.postings, d < 4294967296) →
      st.cur_term = some p.1 →
      st.postings.getLast? = some p.2 →
      st.last_doc = some p.2 →
      ((flushIdx (pairs.foldl idxStep st) (pairs.foldl idxStep st).cur_term
          (pairs.foldl idxStep st).postings).offset =
        (flushIdx (pairs.foldl idxStep st) (pairs.foldl idxStep st).cur_term
          (pairs.foldl idxStep st).postings).blob.length ∧
       ∀ e ∈ (flushIdx (pairs.foldl idxStep st) (pairs.foldl idxStep st).cur_term
          (pairs.foldl idxStep st).postings).dict,
         GoodEntry (flushIdx (pairs.foldl idxStep st) (pairs.foldl idxStep st).cur_term
          (pairs.foldl idxStep st).postings).blob e) := by
  induction pairs with
  | nil =>
      intro p st _ _ hoff hdict hpost hpb _ _ _
      exact flushIdx_good st st.cur_term st.postings hoff hdict hpost hpb
  | cons q rest ih =>
      intro p st hchain hb hoff hdict hpost hpb hcur hlast hld
      rcases List.chain_cons.mp hchain with ⟨hpq, hchain'⟩
      rw [List.foldl_cons]
      have hqb : q.2 < 4294967296 := hb q (by simp)
      have hrestb : ∀ r ∈ q :: rest, r.2 < 4294967296 := by
        intro r hr
        exact hb r (List.mem_cons_of_mem p hr)
      by_cases hterm : p.1 = q.1
      · -- same term: the flush branch is not taken
        have hcond : st.cur_term = some q.1 := by rw [hcur, hterm]
        by_cases hdoc : p.2 = q.2
        · -- duplicate adjacent doc id: state unchanged
          have hstep2 : idxStep st q = st := by
            rw [idxStep, if_pos hcond]
            exact idxAppend_fixed st q.2 (by rw [hld, hdoc])
          rw [hstep2]
          exact ih q st hchain' hrestb hoff hdict hpost hpb hcond
            (hdoc ▸ hlast) (hdoc ▸ hld)
        · -- new doc id for the same term: append it
          have hlt : p.2 < q.2 := by
            rcases hpq with h | ⟨_, h2⟩
            · exact absurd rfl (by rw [hterm] at h; exact ne_of_lt h)
            · omega
          have hstep2 : idxStep st q =
              { st with postings := st.postings ++ [q.2], last_doc := some q.2 } := by
            rw [idxStep, if_pos hcond]
            apply idxAppend_push
            rw [hld]
            intro hcontra
            exact hdoc (Option.some.injEq _ _ ▸ hcontra)
          rw [hstep2]
          refine ih q { st with postings := st.postings ++ [q.2], last_doc := some q.2 }
            hchain' hrestb hoff hdict ?_ ?_ hcond ?_ rfl
          · -- strictly increasing after the append
            apply List.Chain'.append hpost (List.chain'_singleton q.2)
            intro x hx y hy
            simp only [List.head?_cons, Option.mem_def, Option.some.injEq] at hy
            rw [Option.mem_def, hlast] at hx
            injection hx with hxp
            omega
          · intro d hd
            rcases List.mem_append.mp hd with h | h
            · exact hpb d h
            · rw [List.mem_singleton] at h; omega
          · exact List.getLast?_concat _
      · -- term change: flush the previous term's list, reset, append q.2
        have hcond : ¬(st.cur_term = some q.1) := by
          rw [hcur]
          intro hcontra
          exact hterm (Option.some.injEq _ _ ▸ hcontra)
        obtain ⟨hoff', hdict'⟩ :=
          flushIdx_good st st.cur_term st.postings hoff hdict hpost hpb
        have hstep2 : idxStep st q =
            { cur_term := some q.1, last_doc := some q.2, postings := [q.2],
              blob := (flushIdx st st.cur_term st.postings).blob,
              dict := (flushIdx st st.cur_term st.postings).dict,
              offset := (flushIdx st st.cur_term st.postings).offset } := by
          rw [idxStep, if_neg hcond, idxAppend_push _ _ (by intro h; cases h)]
          rfl
        rw [hstep2]
        refine ih q _ hchain' hrestb hoff' hdict' (List.chain'_singleton q.2)
          ?_ rfl rfl rfl
        intro d hd
        rw [List.mem_singleton] at hd
        omega

theorem buildIndex_good (pairs : List (String × Nat))
    (hsorted : pairs.Chain' pairLE)
    (hb : ∀ q ∈ pairs, q.2 < 4294967296) :
    (buildIndex pairs).offset = (buildIndex pairs).blob.length ∧
      ∀ e ∈ (buildIndex pairs).dict, GoodEntry (buildIndex pairs).blob e := by
  cases pairs with
  | nil =>
      constructor
      · rfl
      · intro e he
        cases he
  | cons p rest =>
      have hstep1 : idxStep initIdx p =
          ⟨some p.1, some p.2, [p.2], [], [], 0⟩ := by
        rw [idxStep, if_neg (by intro h; cases h),
          idxAppend_push _ _ (by intro h; cases h)]
        rfl
      show ((flushIdx ((p :: rest).foldl idxStep initIdx) _ _).offset = _ ∧ _)
      rw [List.foldl_cons, hstep1]
      exact build_loop_good rest p ⟨some p.1, some p.2, [p.2], [], [], 0⟩
        hsorted hb rfl (fun e he => by cases he) (List.chain'_singleton p.2)
        (fun d hd => by rw [List.mem_singleton] at hd; exact hd ▸ hb p (by simp))
        rfl rfl rfl

theorem op_not_go_nil (l : List Nat) : op_not_go [] l = l := by
  induction l with
  | nil => rw [op_not_go.eq_def]
  | cons d ds ih =>
      show op_not_go [] (d :: ds) = d :: ds
      rw [op_not_go.eq_def]
      simp only
      rw [ih]

theorem eval_progress_shift (dict : List DictEntry) (blob : List Nat)
    (n : Nat) (t : String) (rest : List String) (st0 st1 : List (List Nat))
    (hstep : ∀ tail, eval_go dict blob n (t :: tail) st0 =
      eval_go dict blob n tail st1)
    (h : (∃ pre op post st, rest = pre ++ op :: post ∧
          eval_go dict blob n pre st1 = Except.ok st ∧ underflowCond op st ∧
          eval_go dict blob n rest st1 =
            Except.error (op ++ " missing operand"))
        ∨ (∃ st, eval_go dict blob n rest st1 = Except.ok st)) :
    (∃ pre op post st, t :: rest = pre ++ op :: post ∧
        eval_go dict blob n pre st0 = Except.ok st ∧ underflowCond op st ∧
        eval_go dict blob n (t :: rest) st0 =
          Except.error (op ++ " missing operand"))
      ∨ (∃ st, eval_go dict blob n (t :: rest) st0 = Except.ok st) := by
  rcases h with ⟨pre, op, post, st, hdec, hpre, hcond, herr⟩ | ⟨st, hok⟩
  · left
    refine ⟨t :: pre, op, post, st, by rw [hdec, List.cons_append], ?_, hcond, ?_⟩
    · rw [hstep pre, hpre]
    · rw [hstep rest, herr]
  · right
    exact ⟨st, by rw [hstep rest, hok]⟩

theorem eval_go_progress (dict : List DictEntry) (blob : List Nat) (n : Nat) :
    ∀ (rpn : List String) (st0 : List (List Nat)),
      (∃ pre op post st, rpn = pre ++ op :: post ∧
          eval_go dict blob n pre st0 = Except.ok st ∧ underflowCond op st ∧
          eval_go dict blob n rpn st0 =
            Except.error (op ++ " missing operand"))
        ∨ (∃ st, eval_go dict blob n rpn st0 = Except.ok st) := by
  intro rpn
  induction rpn with
  | nil => intro st0; exact Or.inr ⟨st0, rfl⟩
  | cons t rest ih =>
      intro st0
      by_cases hnot : t = "NOT"
      · subst hnot
        match st0 with
        | [] =>
            left
            exact ⟨[], "NOT", rest, [], rfl, rfl, Or.inr ⟨rfl, rfl⟩, rfl⟩
        | a :: st' =>
            exact eval_progress_shift dict blob n "NOT" rest (a :: st')
              (op_not a n :: st') (fun tail => rfl) (ih (op_not a n :: st'))
      · by_cases hand : t = "AND"
        · subst hand
          match st0 with
          | [] =>
              left
              exact ⟨[], "AND", rest, [], rfl, rfl,
                Or.inl ⟨Or.inl rfl, by simp⟩, rfl⟩
          | [a] =>
              left
              exact ⟨[], "AND", rest, [a], rfl, rfl,
                Or.inl ⟨Or.inl rfl, by simp⟩, rfl⟩
          | b :: a :: st' =>
              exact eval_progress_shift dict blob n "AND" rest (b :: a :: st')
                (op_and a b :: st') (fun tail => rfl) (ih (op_and a b :: st'))
        · by_cases hor : t = "OR"
          · subst hor
            match st0 with
            | [] =>
                left
                exact ⟨[], "OR", rest, [], rfl, rfl,
                  Or.inl ⟨Or.inr rfl, by simp⟩, rfl⟩
            | [a] =>
                left
                exact ⟨[], "OR", rest, [a], rfl, rfl,
                  Or.inl ⟨Or.inr rfl, by simp⟩, rfl⟩
            | b :: a :: st' =>
                exact eval_progress_shift dict blob n "OR" rest (b :: a :: st')
                  (op_or a b :: st') (fun tail => rfl) (ih (op_or a b :: st'))
          · have hstep : ∀ tail, eval_go dict blob n (t :: tail) st0 =
                eval_go dict blob n tail (read_postings t dict blob :: st0) := by
              intro tail
              simp only [eval_go]
              rw [if_neg hnot, if_neg hand, if_neg hor]
            exact eval_progress_shift dict blob n t rest st0
              (read_postings t dict blob :: st0) hstep
              (ih (read_postings t dict blob :: st0))

theorem popUntilParen_inv {s : List String} {d : Nat} (h : StackInv s d) :
    ∀ out, (d = 0 → (popUntilParen out s).2 = []) ∧
      (∀ d', d = d' + 1 →
        ∃ s', (popUntilParen out s).2 = "(" :: s' ∧ StackInv s' d') := by
  induction h with
  | nil =>
      intro out
      exact ⟨fun _ => rfl, fun d' hd => by cases hd⟩
  | op t s d hne1 hne2 hs ih =>
      intro out
      have hstep : popUntilParen out (t :: s) = popUntilParen (out ++ [t]) s := by
        simp only [popUntilParen]
        rw [if_neg hne1]
      rw [hstep]
      exact ih (out ++ [t])
  | paren s d hs =>
      intro out
      have hstep : popUntilParen out ("(" :: s) = (out, "(" :: s) := by
        simp [popUntilParen]
      rw [hstep]
      constructor
      · intro h0
        exact absurd h0 (Nat.succ_ne_zero d)
      · intro d' hd
        refine ⟨s, rfl, ?_⟩
        have hdd : d = d' := by omega
        rw [← hdd]
        exact hs

theorem popOps_inv {s : List String} {d : Nat} (h : StackInv s d)
    (t : String) : ∀ out, StackInv (popOps t out s).2 d := by
  induction h with
  | nil => intro out; exact StackInv.nil
  | op t0 s d hne1 hne2 hs ih =>
      intro out
      simp only [popOps]
      split
      · exact ih (out ++ [t0])
      · exact StackInv.op t0 s d hne1 hne2 hs
  | paren s d hs =>
      intro out
      simp only [popOps]
      have hop : isOpTok "(" = false := rfl
      rw [hop]
      simp only [Bool.false_and, Bool.false_eq_true, if_false]
      exact StackInv.paren s d hs

theorem drainStack_inv {s : List String} {d : Nat} (h : StackInv s d) :
    ∀ out, (d = 0 → ∃ r, drainStack out s = Except.ok r) ∧
      (0 < d → drainStack out s = Except.error "Mismatched parentheses") := by
  induction h with
  | nil =>
      intro out
      exact ⟨fun _ => ⟨out, rfl⟩, fun h0 => absurd h0 (by omega)⟩
  | op t s d hne1 hne2 hs ih =>
      intro out
      have hstep : drainStack out (t :: s) = drainStack (out ++ [t]) s := by
        simp only [drainStack]
        rw [if_neg (by push_neg; exact ⟨hne1, hne2⟩)]
      rw [hstep]
      exact ih (out ++ [t])
  | paren s d hs =>
      intro out
      have hstep : drainStack out ("(" :: s) =
          Except.error "Mismatched parentheses" := by
        simp [drainStack]
      constructor
      · intro h0
        exact absurd h0 (Nat.succ_ne_zero d)
      · intro h0
        exact hstep

theorem to_rpn_go_balanced (tokens : List String) :
    ∀ (out stack : List String) (d : Nat), StackInv stack d →
      (balancedFrom tokens d = true →
        ∃ r, to_rpn_go tokens out stack = Except.ok r) ∧
      (balancedFrom tokens d = false →
        to_rpn_go tokens out stack = Except.error "Mismatched parentheses") := by
  induction tokens with
  | nil =>
      intro out stack d hinv
      constructor
      · intro hb
        have hd : d = 0 := by
          simpa [balancedFrom] using hb
        exact (drainStack_inv hinv out).1 hd
      · intro hb
        have hd : 0 < d := by
          rcases Nat.eq_zero_or_pos d with h0 | h0
          · rw [h0] at hb; simp [balancedFrom] at hb
          · exact h0
        exact (drainStack_inv hinv out).2 hd
  | cons t rest ih =>
      intro out stack d hinv
      by_cases hl : t = "("
      · subst hl
        have hstep : ∀ o s, to_rpn_go ("(" :: rest) o s =
            to_rpn_go rest o ("(" :: s) := by
          intro o s
          simp [to_rpn_go]
        have hbal : ∀ b, balancedFrom ("(" :: rest) d = b ↔
            balancedFrom rest (d + 1) = b := by
          intro b
          simp [balancedFrom]
        rw [hstep]
        obtain ⟨h1, h2⟩ := ih out ("(" :: stack) (d + 1) (StackInv.paren _ _ hinv)
        exact ⟨fun hb => h1 ((hbal true).mp hb), fun hb => h2 ((hbal false).mp hb)⟩
      · by_cases hr : t = ")"
        · subst hr
          cases d with
          | zero =>
              have hsnd : (popUntilParen out stack).2 = [] :=
                (popUntilParen_inv hinv out).1 rfl
              constructor
              · intro hb
                exfalso
                simp [balancedFrom] at hb
              · intro hb
                rcases hps : popUntilParen out stack with ⟨o', s'⟩
                have hs' : s' = [] := by rw [hps] at hsnd; exact hsnd
                subst hs'
                simp [to_rpn_go, hps]
          | succ d' =>
              obtain ⟨s', hs', hinv'⟩ :=
                (popUntilParen_inv hinv out).2 d' rfl
              rcases hps : popUntilParen out stack with ⟨o', s2⟩
              have hs2 : s2 = "(" :: s' := by rw [hps] at hs'; exact hs'
              subst hs2
              have hstep : to_rpn_go (")" :: rest) out stack =
                  to_rpn_go rest o' s' := by
                simp [to_rpn_go, hps]
              have hbal : ∀ b, balancedFrom (")" :: rest) (d' + 1) = b ↔
                  balancedFrom rest d' = b := by
                intro b
                simp [balancedFrom]
              rw [hstep]
              obtain ⟨h1, h2⟩ := ih o' s' d' hinv'
              exact ⟨fun hb => h1 ((hbal true).mp hb),
                fun hb => h2 ((hbal false).mp hb)⟩
        · have hbal : ∀ b, balancedFrom (t :: rest) d = b ↔
              balancedFrom rest d = b := by
            intro b
            simp only [balancedFrom]
            rw [if_neg hl, if_neg hr]
          by_cases hop : isOpTok t = true
          · have hne1 : t ≠ "(" := hl
            have hne2 : t ≠ ")" := hr
            rcases hpo : popOps t out stack with ⟨o', s'⟩
            have hinv2 : StackInv (t :: s') d := by
              have := popOps_inv hinv t out
              rw [hpo] at this
              exact StackInv.op t s' d hne1 hne2 this
            have hstep : to_rpn_go (t :: rest) out stack =
                to_rpn_go rest o' (t :: s') := by
              simp only [to_rpn_go]
              rw [if_neg hl, if_neg hr, if_pos hop, hpo]
            rw [hstep]
            obtain ⟨h1, h2⟩ := ih o' (t :: s') d hinv2
            exact ⟨fun hb => h1 ((hbal true).mp hb),
              fun hb => h2 ((hbal false).mp hb)⟩
          · have hstep : to_rpn_go (t :: rest) out stack =
                to_rpn_go rest (out ++ [t]) stack := by
              simp only [to_rpn_go]
              rw [if_neg hl, if_neg hr, if_neg hop]
            rw [hstep]
            obtain ⟨h1, h2⟩ := ih (out ++ [t]) stack d hinv
            exact ⟨fun hb => h1 ((hbal true).mp hb),
              fun hb => h2 ((hbal false).mp hb)⟩

theorem web_run_append (dict : List (String × Nat × Nat)) (blob : List Nat)
    (n : Nat) (xs ys : List WTok) :
    ∀ st, web_run dict blob n (xs ++ ys) st =
      match web_run dict blob n xs st with
      | Except.error e => Except.error e
      | Except.ok none => Except.ok none
      | Except.ok (some st') => web_run dict blob n ys st' := by
  induction xs with
  | nil => intro st; rfl
  | cons x xs ih =>
      intro st
      cases x with
      | term t =>
          rw [List.cons_append]
          cases hdl : webDictLookup dict t with
          | none =>
              have h1 : ∀ tail, web_run dict blob n (WTok.term t :: tail) st =
                  web_run dict blob n tail ([] :: st) := by
                intro tail
                simp only [web_run, hdl]
              rw [h1, h1, ih ([] :: st)]
          | some od =>
              cases od with
              | mk off df =>
                  cases hlp : load_postings blob off df with
                  | none =>
                      have h1 : ∀ tail,
                          web_run dict blob n (WTok.term t :: tail) st =
                            Except.error "unexpected EOF" := by
                        intro tail
                        simp only [web_run, hdl, hlp]
                      rw [h1, h1]
                  | some l =>
                      have h1 : ∀ tail,
                          web_run dict blob n (WTok.term t :: tail) st =
                            web_run dict blob n tail (l :: st) := by
                        intro tail
                        simp only [web_run, hdl, hlp]
                      rw [h1, h1, ih (l :: st)]
      | NOT =>
          rw [List.cons_append]
          cases st with
          | nil => rfl
          | cons a st' => exact ih (complement_sorted a n :: st')
      | AND =>
          rw [List.cons_append]
          match st with
          | [] => rfl
          | [a] => rfl
          | b :: a :: st' => exact ih (intersect_sorted a b :: st')
      | OR =>
          rw [List.cons_append]
          match st with
          | [] => rfl
          | [a] => rfl
          | b :: a :: st' => exact ih (union_sorted a b :: st')
      | LP =>
          rw [List.cons_append]
          exact ih st
      | RP =>
          rw [List.cons_append]
          exact ih st

/-- C1 counterexample: the claim says `flush` appends the delta-gap varint
encoding of the posting list, but flushing `[300]` appends the fixed-width
bytes `[44, 1, 0, 0]` (`struct.pack("<I", 300)`), while the delta-varint
encoding of `[300]` is `[172, 2]`. -/
theorem C1_counterexample :
    (flushIdx initIdx (some "t") [300]).blob = [44, 1, 0, 0] ∧
      encode_postings [300] = [172, 2] ∧
      (flushIdx initIdx (some "t") [300]).blob ≠ encode_postings [300] := by
  have hw : write_varint 300 = [172, 2] := by
    rw [write_varint, if_neg (by norm_num)]
    norm_num
    rw [write_varint, if_pos (by norm_num)]
  have h2 : encode_postings [300] = [172, 2] := by
    rw [encode_postings]
    show write_varint 300 ++ [] = [172, 2]
    rw [hw, List.append_nil]
  have h1 : (flushIdx initIdx (some "t") [300]).blob = [44, 1, 0, 0] := by
    rw [flushIdx_blob, flushData_of_sorted [300] (List.chain'_singleton 300)]
    decide
  refine ⟨h1, h2, ?_⟩
  rw [h1, h2]
  decide

/-- C1 amended: for every non-empty strictly increasing posting list, the
bytes the assembler's `flush` appends to the postings blob are the
fixed-width encoding of the ascending doc-id list — each doc id as a
4-byte little-endian unsigned integer, concatenated in order — not the
delta-gap varint stream the spec describes. -/
theorem C1_amended_flush_fixed_width (st : IdxState) (t : String)
    (l : List Nat) (hne : l ≠ []) (hs : l.Chain' (· < ·)) :
    (flushIdx st (some t) l).blob = st.blob ++ l.flatMap encU32 := by
  rw [flushIdx_blob, flushData_of_sorted l hs]

theorem C1_amended_flush_fixed_width_witness :
    ([2, 300] : List Nat) ≠ [] ∧ ([2, 300] : List Nat).Chain' (· < ·) ∧
      (flushIdx initIdx (some "x") [2, 300]).blob =
        initIdx.blob ++ ([2, 300] : List Nat).flatMap encU32 :=
  ⟨by decide, by simp [List.chain'_cons],
    C1_amended_flush_fixed_width initIdx "x" [2, 300] (by decide)
      (by simp [List.chain'_cons])⟩

/-- C2: the delta/varint codec round-trips: encoding a strictly increasing
doc-id sequence with the (spec-modelled, see `write_varint`) delta-gap
varint writer and decoding it with web.py `load_postings` / `read_varint`
reproduces the sequence exactly, wherever the encoded bytes sit inside the
postings blob.  This covers single-element lists and multi-byte gaps such
as 300. -/
theorem C2_varint_delta_roundtrip (ids pre rest : List Nat)
    (h : ids.Chain' (· < ·)) :
    load_postings (pre ++ encode_postings ids ++ rest) pre.length ids.length
      = some ids :=
  load_postings_encode ids pre rest h

theorem C2_varint_delta_roundtrip_witness :
    ([5, 305] : List Nat).Chain' (· < ·) ∧
      load_postings ([] ++ encode_postings [5, 305] ++ [])
        (List.length ([] : List Nat)) ([5, 305] : List Nat).length =
        some [5, 305] ∧
      load_postings ([9] ++ encode_postings [7] ++ [1])
        (List.length ([9] : List Nat)) ([7] : List Nat).length = some [7] :=
  ⟨by simp [List.chain'_cons],
    C2_varint_delta_roundtrip [5, 305] [] [] (by simp [List.chain'_cons]),
    C2_varint_delta_roundtrip [7] [9] [1] (List.chain'_singleton 7)⟩

/-- C3: for every term `t`, the posting list retrieved at query time
(`read_postings`) from an index built by `build_inverted_from_sorted` out
of a sorted `(term, doc_id)` pair stream is strictly increasing, hence
duplicate-free. -/
theorem C3_retrieved_postings_strictly_increasing
    (pairs : List (String × Nat)) (t : String)
    (hsorted : pairs.Chain' pairLE)
    (hb : ∀ q ∈ pairs, q.2 < 4294967296) :
    (read_postings t (buildIndex pairs).dict
      (buildIndex pairs).blob).Chain' (· < ·) := by
  obtain ⟨-, hdict⟩ := buildIndex_good pairs hsorted hb
  cases hlook : dictLookup (buildIndex pairs).dict t with
  | none =>
      rw [read_postings, hlook]
      exact List.chain'_nil
  | some e =>
      rw [read_postings, hlook]
      rw [dictLookup] at hlook
      have he : e ∈ (buildIndex pairs).dict :=
        List.mem_reverse.mp (List.mem_of_find?_eq_some hlook)
      exact (hdict e he).2

theorem chainPairsWitness :
    ([("a", 0), ("a", 1), ("b", 1)] : List (String × Nat)).Chain' pairLE := by
  simp only [List.chain'_cons, List.chain'_singleton, and_true]
  constructor
  · right; exact ⟨rfl, by omega⟩
  · left; simp; decide

theorem C3_retrieved_postings_strictly_increasing_witness :
    ([("a", 0), ("a", 1), ("b", 1)] : List (String × Nat)).Chain' pairLE ∧
      (∀ q ∈ ([("a", 0), ("a", 1), ("b", 1)] : List (String × Nat)),
        q.2 < 4294967296) ∧
      (read_postings "a" (buildIndex [("a", 0), ("a", 1), ("b", 1)]).dict
        (buildIndex [("a", 0), ("a", 1), ("b", 1)]).blob).Chain' (· < ·) :=
  ⟨chainPairsWitness, by decide,
    C3_retrieved_postings_strictly_increasing [("a", 0), ("a", 1), ("b", 1)]
      "a" chainPairsWitness (by decide)⟩

/-- C4: query precedence.  At the parse level, `a OR b AND c` produces the
same operation sequence as `a OR (b AND c)` and `NOT a AND b` the same as
`(NOT a) AND b`, so the two pairs evaluate identically over every
dictionary and blob; and there is an index on which `a OR b AND c` differs
from `(a OR b) AND c`, so the parser's precedence is NOT > AND > OR with
parentheses overriding, not left-to-right grouping. -/
theorem C4_precedence :
    to_rpn ["a", "OR", "b", "AND", "c"] =
        to_rpn ["a", "OR", "(", "b", "AND", "c", ")"] ∧
      to_rpn ["NOT", "a", "AND", "b"] =
        to_rpn ["(", "NOT", "a", ")", "AND", "b"] ∧
      (∀ (dict : List DictEntry) (blob : List Nat) (n : Nat),
        runQuery dict blob n ["a", "OR", "b", "AND", "c"] =
          runQuery dict blob n ["a", "OR", "(", "b", "AND", "c", ")"]) ∧
      (∀ (dict : List DictEntry) (blob : List Nat) (n : Nat),
        runQuery dict blob n ["NOT", "a", "AND", "b"] =
          runQuery dict blob n ["(", "NOT", "a", ")", "AND", "b"]) ∧
      runQuery [⟨"a", 1, 0, 4⟩] [0, 0, 0, 0] 1 ["a", "OR", "b", "AND", "c"] ≠
        runQuery [⟨"a", 1, 0, 4⟩] [0, 0, 0, 0] 1
          ["(", "a", "OR", "b", ")", "AND", "c"] := by
  refine ⟨rfl, rfl, fun dict blob n => rfl, fun dict blob n => rfl, ?_⟩
  have h1 : runQuery [⟨"a", 1, 0, 4⟩] [0, 0, 0, 0] 1
      ["a", "OR", "b", "AND", "c"] = Except.ok [0] := by
    have h : to_rpn ["a", "OR", "b", "AND", "c"] =
        Except.ok ["a", "b", "c", "AND", "OR"] := rfl
    rw [runQuery, h]
    simp [eval_rpn, eval_go, read_postings, dictLookup, decU32s, op_and, op_or]
  have h2 : runQuery [⟨"a", 1, 0, 4⟩] [0, 0, 0, 0] 1
      ["(", "a", "OR", "b", ")", "AND", "c"] = Except.ok [] := by
    have h : to_rpn ["(", "a", "OR", "b", ")", "AND", "c"] =
        Except.ok ["a", "b", "OR", "c", "AND"] := rfl
    rw [runQuery, h]
    simp [eval_rpn, eval_go, read_postings, dictLookup, decU32s, op_and, op_or]
  rw [h1, h2]
  intro hcontra
  cases hcontra

/-- C5: outcome of the RPN evaluator.  Every operation sequence falls into
exactly one of: (i) some operator underflows — `AND`/`OR` with fewer than
two stacked operands or `NOT` with an empty stack — and the evaluator
fails with that operator's ValueError (the `MissingOperandError` of the
design), (ii) the sequence runs through but leaves a stack whose size is
not one, and the evaluator fails with ValueError "Bad query" (the design's
`MalformedQueryError`), or (iii) it runs through with exactly one set left,
which is returned. -/
theorem C5_eval_rpn_outcomes (dict : List DictEntry) (blob : List Nat)
    (n : Nat) (rpn : List String) :
    (∃ pre op post st, rpn = pre ++ op :: post ∧
        eval_go dict blob n pre [] = Except.ok st ∧ underflowCond op st ∧
        eval_rpn dict blob n rpn = Except.error (op ++ " missing operand"))
      ∨ (∃ st, eval_go dict blob n rpn [] = Except.ok st ∧ st.length ≠ 1 ∧
          eval_rpn dict blob n rpn = Except.error "Bad query")
      ∨ (∃ s, eval_go dict blob n rpn [] = Except.ok [s] ∧
          eval_rpn dict blob n rpn = Except.ok s) := by
  rcases eval_go_progress dict blob n rpn [] with
    ⟨pre, op, post, st, hdec, hpre, hcond, herr⟩ | ⟨st, hok⟩
  · left
    exact ⟨pre, op, post, st, hdec, hpre, hcond, by rw [eval_rpn, herr]⟩
  · match st, hok with
    | [s], hok =>
        right; right
        exact ⟨s, hok, by rw [eval_rpn, hok]⟩
    | [], hok =>
        right; left
        exact ⟨[], hok, by simp, by rw [eval_rpn, hok]⟩
    | a :: b :: st', hok =>
        right; left
        exact ⟨a :: b :: st', hok, by simp, by rw [eval_rpn, hok]⟩

/-- C6: `to_rpn` fails with ValueError "Mismatched parentheses" (the
design's `MismatchedParenError`) exactly on token sequences whose
parentheses do not balance, and succeeds on every balanced sequence. -/
theorem C6_mismatched_parens (tokens : List String) :
    ((∃ r, to_rpn tokens = Except.ok r) ↔ balancedFrom tokens 0 = true) ∧
      (to_rpn tokens = Except.error "Mismatched parentheses" ↔
        balancedFrom tokens 0 = false) := by
  obtain ⟨h1, h2⟩ := to_rpn_go_balanced tokens [] [] 0 StackInv.nil
  constructor
  · constructor
    · rintro ⟨r, hr⟩
      cases hb : balancedFrom tokens 0
      · rw [to_rpn] at hr
        rw [h2 hb] at hr
        cases hr
      · rfl
    · intro hb
      exact h1 hb
  · constructor
    · intro he
      cases hb : balancedFrom tokens 0
      · rfl
      · obtain ⟨r, hr⟩ := h1 hb
        rw [to_rpn] at he
        rw [hr] at he
        cases he
    · intro hb
      exact h2 hb

/-- C7: a query term absent from the dictionary is not an error:
`read_postings` returns the empty posting list, the evaluator's TERM step
pushes `[]` and continues, and the empty list composes with the set
operations (`AND` with anything is empty, `OR` is identity, `NOT` is the
whole doc-id universe). -/
theorem C7_unknown_term_matches_nothing (dict : List DictEntry)
    (blob : List Nat) (n : Nat) (t : String) (rest : List String)
    (st : List (List Nat)) (habsent : dictLookup dict t = none)
    (hn1 : t ≠ "NOT") (hn2 : t ≠ "AND") (hn3 : t ≠ "OR") :
    read_postings t dict blob = [] ∧
      eval_go dict blob n (t :: rest) st =
        eval_go dict blob n rest ([] :: st) ∧
      (∀ l : List Nat, op_and [] l = [] ∧ op_and l [] = [] ∧
        op_or [] l = l ∧ op_or l [] = l) ∧
      op_not [] n = List.range n := by
  have hrp : read_postings t dict blob = [] := by
    rw [read_postings, habsent]
  refine ⟨hrp, ?_, ?_, ?_⟩
  · simp only [eval_go]
    rw [if_neg hn1, if_neg hn2, if_neg hn3, hrp]
  · intro l
    refine ⟨?_, ?_, ?_, ?_⟩
    · rw [op_and.eq_def]
    · rw [op_and.eq_def]
      cases l <;> rfl
    · rw [op_or.eq_def]
    · rw [op_or.eq_def]
      cases l <;> rfl
  · rw [op_not, op_not_go_nil]

theorem C7_unknown_term_matches_nothing_witness :
    dictLookup [] "zzz" = none ∧ ("zzz" : String) ≠ "NOT" ∧
      ("zzz" : String) ≠ "AND" ∧ ("zzz" : String) ≠ "OR" ∧
      (read_postings "zzz" [] [] = [] ∧
        eval_go [] [] 2 ["zzz"] [] = eval_go [] [] 2 [] [[]] ∧
        (∀ l : List Nat, op_and [] l = [] ∧ op_and l [] = [] ∧
          op_or [] l = l ∧ op_or l [] = l) ∧
        op_not [] 2 = List.range 2) :=
  ⟨rfl, by decide, by decide, by decide,
    C7_unknown_term_matches_nothing [] [] 2 "zzz" [] [] rfl
      (by decide) (by decide) (by decide)⟩

/-- C8: if corpus enumeration discovers no documents, the build aborts with
`SystemExit("No documents found in input_dir")` (the design's
`CorpusEmptyError`) and produces no index artifacts; with a non-empty
corpus it does not raise that error.  The single `Except` result models the
one-shot, unretried build. -/
theorem C8_empty_corpus_aborts (wiki marine : List String)
    (sortedPairs : List (String × String) → List (String × Nat)) :
    mainBuild wiki marine sortedPairs =
        Except.error "No documents found in input_dir" ↔
      list_docs wiki marine = [] := by
  rw [mainBuild]
  constructor
  · intro h
    by_cases hd : (list_docs wiki marine).isEmpty
    · exact List.isEmpty_iff.mp hd
    · rw [if_neg hd] at h
      cases h
  · intro h
    rw [if_pos (by rw [h]; rfl)]

/-- C9: build/read coherence of the shipped fixed-width codec: for every
strictly increasing doc-id list flushed by the assembler, looking the term
up in the dictionary and decoding the byte range
`[offset, offset + length)` of the postings blob as consecutive 4-byte
little-endian unsigned integers (`read_postings`) yields exactly the
original list. -/
theorem C9_fixed_width_readback (st : IdxState) (t : String) (l : List Nat)
    (hoff : st.offset = st.blob.length) (hs : l.Chain' (· < ·))
    (hb : ∀ d ∈ l, d < 4294967296) :
    read_postings t (flushIdx st (some t) l).dict
      (flushIdx st (some t) l).blob = l :=
  read_postings_flush st t l hoff hs hb

theorem C9_fixed_width_readback_witness :
    initIdx.offset = initIdx.blob.length ∧
      ([1, 5, 300] : List Nat).Chain' (· < ·) ∧
      (∀ d ∈ ([1, 5, 300] : List Nat), d < 4294967296) ∧
      read_postings "x" (flushIdx initIdx (some "x") [1, 5, 300]).dict
        (flushIdx initIdx (some "x") [1, 5, 300]).blob = [1, 5, 300] :=
  ⟨rfl, by simp [List.chain'_cons], by decide,
    C9_fixed_width_readback initIdx "x" [1, 5, 300] rfl
      (by simp [List.chain'_cons]) (by decide)⟩

/-- C10: the web query path's evaluator does not raise on a malformed
operation sequence.  If some prefix evaluates to a stack on which the next
operator underflows (`AND`/`OR` with fewer than two operands, `NOT` with an
empty stack), or the whole sequence runs through leaving a stack whose
size is not one, `web.eval_rpn` returns the empty result list. -/
theorem C10_web_eval_malformed_returns_empty
    (dict : List (String × Nat × Nat)) (blob : List Nat) (n : Nat)
    (rpn : List WTok) :
    ((∃ pre op post st, rpn = pre ++ op :: post ∧
        web_run dict blob n pre [] = Except.ok (some st) ∧
        webUnderflow op st) →
      web_eval_rpn dict blob n rpn = Except.ok []) ∧
    ((∃ st, web_run dict blob n rpn [] = Except.ok (some st) ∧
        st.length ≠ 1) →
      web_eval_rpn dict blob n rpn = Except.ok []) := by
  constructor
  · rintro ⟨pre, op, post, st, rfl, hpre, hcond⟩
    have hrun : web_run dict blob n (pre ++ op :: post) [] =
        Except.ok none := by
      rw [web_run_append dict blob n pre (op :: post) [], hpre]
      rcases hcond with ⟨hop, hlen⟩ | ⟨hop, hnil⟩
      · rcases hop with rfl | rfl
        · match st, hlen with
          | [], _ => rfl
          | [a], _ => rfl
        · match st, hlen with
          | [], _ => rfl
          | [a], _ => rfl
      · subst hop
        subst hnil
        rfl
    rw [web_eval_rpn, hrun]
  · rintro ⟨st, hrun, hlen⟩
    rw [web_eval_rpn, hrun]
    match st, hlen with
    | [], _ => rfl
    | a :: b :: st', _ => rfl

theorem C10_web_eval_malformed_returns_empty_witness :
    web_eval_rpn [] [] 0 [WTok.AND] = Except.ok [] ∧
      web_eval_rpn [] [] 0 [WTok.term "a", WTok.term "b"] = Except.ok [] :=
  ⟨(C10_web_eval_malformed_returns_empty [] [] 0 [WTok.AND]).1
      ⟨[], WTok.AND, [], [], rfl, rfl, Or.inl ⟨Or.inl rfl, by decide⟩⟩,
    (C10_web_eval_malformed_returns_empty [] [] 0
        [WTok.term "a", WTok.term "b"]).2
      ⟨[[], []], rfl, by decide⟩⟩
